import Mathlib

/-
Verification development for the compression / decompression / binary-conversion
tools of this repository (src/compress_mpi.cpp, src/decompress_mpi.cpp, src/bin.cpp).

The relevant program fragments are shallowly embedded below:
machine size_t arithmetic becomes Nat (the quantities involved never overflow in the
scenarios of interest and C++ size_t division is Nat division), double arithmetic
becomes real arithmetic, and the event sequencing of the step loops becomes explicit
event traces.
-/

namespace CompressTools

/-! ## Step loop of analyzeVariable (src/decompress_mpi.cpp, lines 93-200)

The loop condition is
  readerUncomp.BeginStep() == OK && readerComp.BeginStep() == OK && (maxSteps < 0 || step < maxSteps)
and every caller leaves maxSteps at its default -1, so the third conjunct is always
true.  The two readers are modelled by the number of steps they can still
successfully begin (BeginStep answers OK that many times, then EndOfStream).
Every path through the loop body calls EndStep on both readers (lines 103-104,
124-125, 148-149), so the body is modelled as one matched endU/endC pair.
After the loop, Close is called on both readers (lines 199-200) with no further
EndStep. -/

inductive Ev where
  | beginU
  | beginC
  | endU
  | endC
deriving DecidableEq

/-- Event trace of the while loop of analyzeVariable, given the number of steps
remaining in the uncompressed reader and in the compressed reader.  Due to
short-circuit evaluation, the compressed reader's BeginStep is only called when the
uncompressed reader's BeginStep answered OK. -/
def loopTrace : Nat → Nat → List Ev
  | 0, _ => []
  | _ + 1, 0 => [Ev.beginU]
  | u + 1, c + 1 => Ev.beginU :: Ev.beginC :: Ev.endU :: Ev.endC :: loopTrace u c

/-! ## Domain decomposition (src/compress_mpi.cpp lines 61-67, src/decompress_mpi.cpp lines 130-137)

Both tools use the identical four lines:
  std::vector<size_t> start(ndims, 0);
  std::vector<size_t> count = shape;
  count[decompDim] /= size;
  start[decompDim] = rank * count[decompDim];
-/

/-- Per-worker count vector: the global shape with the entry on the decomposition
axis replaced by its truncating quotient by the worker count. -/
def decompCount (S : List Nat) (a P : Nat) : List Nat :=
  S.set a (S.getD a 0 / P)

/-- Per-worker start vector: all zeros except the decomposition axis, which gets
rank * count[decompDim]. -/
def decompStart (S : List Nat) (a P i : Nat) : List Nat :=
  (List.replicate S.length 0).set a (i * (S.getD a 0 / P))

/-- Element x on the decomposition axis falls inside worker i's half-open interval
[start, start + count) as computed by the source's decomposition. -/
def coveredBy (S : List Nat) (a P i x : Nat) : Prop :=
  (decompStart S a P i).getD a 0 ≤ x ∧
    x < (decompStart S a P i).getD a 0 + (decompCount S a P).getD a 0

/-- Element x on the decomposition axis is read or written by some worker
among the P workers. -/
def covered (S : List Nat) (a P x : Nat) : Prop :=
  ∃ i ∈ Finset.range P, coveredBy S a P i x

instance (S : List Nat) (a P i x : Nat) : Decidable (coveredBy S a P i x) := by
  unfold coveredBy; exact inferInstance

instance (S : List Nat) (a P x : Nat) : Decidable (covered S a P x) := by
  unfold covered; exact inferInstance

/-- Local element total of a count vector (size_t localSize = 1; for c : count
localSize *= c; in src/decompress_mpi.cpp lines 139-140). -/
def localSizeOf (count : List Nat) : Nat :=
  count.foldl (fun acc c => acc * c) 1

/-! ### Helper lemmas about List.getD and List.set -/

theorem getD_cons_succ (x : Nat) (xs : List Nat) (n d : Nat) :
    (x :: xs).getD (n + 1) d = xs.getD n d := rfl

theorem getD_set_self (l : List Nat) (n v : Nat) (h : n < l.length) :
    (l.set n v).getD n 0 = v := by
  induction l generalizing n with
  | nil => simp at h
  | cons x xs ih =>
    cases n with
    | zero => rfl
    | succ m =>
      have hm : m < xs.length := by simpa using h
      simpa [List.set] using ih m hm

theorem getD_set_ne (l : List Nat) (n m v : Nat) (h : n ≠ m) :
    (l.set n v).getD m 0 = l.getD m 0 := by
  induction l generalizing n m with
  | nil => simp [List.set]
  | cons x xs ih =>
    cases n with
    | zero =>
      cases m with
      | zero => exact absurd rfl h
      | succ k => rfl
    | succ n2 =>
      cases m with
      | zero => rfl
      | succ k =>
        have : n2 ≠ k := by omega
        simpa [List.set] using ih n2 k this

theorem getD_replicate (k n : Nat) :
    (List.replicate k (0 : Nat)).getD n 0 = 0 := by
  induction k generalizing n with
  | zero => simp
  | succ j ih =>
    cases n with
    | zero => rfl
    | succ m => simp [List.replicate, ih m]

theorem mem_set_of_lt (l : List Nat) (i v : Nat) (h : i < l.length) :
    v ∈ l.set i v := by
  induction l generalizing i with
  | nil => simp at h
  | cons x xs ih =>
    cases i with
    | zero => simp [List.set]
    | succ j =>
      have hj : j < xs.length := by simpa using h
      simp [List.set]
      right
      exact ih j hj

theorem foldl_mul_zero (l : List Nat) : l.foldl (fun acc c => acc * c) 0 = 0 := by
  induction l with
  | nil => rfl
  | cons x xs ih => simpa using ih

theorem foldl_mul_of_zero_mem (l : List Nat) (a : Nat) (h : 0 ∈ l) :
    l.foldl (fun acc c => acc * c) a = 0 := by
  induction l generalizing a with
  | nil => simp at h
  | cons x xs ih =>
    rcases List.mem_cons.1 h with h0 | h0
    · subst h0
      simpa using foldl_mul_zero xs
    · simpa using ih (a * x) h0

/-! ### Coverage of the truncating decomposition -/

theorem coveredBy_iff (S : List Nat) (a P i x : Nat) (ha : a < S.length) :
    coveredBy S a P i x ↔
      i * (S.getD a 0 / P) ≤ x ∧ x < i * (S.getD a 0 / P) + S.getD a 0 / P := by
  have hrep : a < (List.replicate S.length (0 : Nat)).length := by simpa using ha
  unfold coveredBy decompStart decompCount
  rw [getD_set_self _ _ _ hrep, getD_set_self _ _ _ ha]

theorem covered_iff (S : List Nat) (a P x : Nat) (ha : a < S.length) :
    covered S a P x ↔ x < P * (S.getD a 0 / P) := by
  set b := S.getD a 0 / P with hb
  constructor
  · rintro ⟨i, hi, hc⟩
    rw [coveredBy_iff S a P i x ha] at hc
    have hiP : i < P := Finset.mem_range.1 hi
    have h1 : x < (i + 1) * b := by
      rw [Nat.succ_mul]; exact hc.2
    have h2 : (i + 1) * b ≤ P * b := Nat.mul_le_mul_right b (by omega)
    omega
  · intro hx
    have hbpos : 0 < b := by
      rcases Nat.eq_zero_or_pos b with h0 | h0
      · rw [h0, Nat.mul_zero] at hx; omega
      · exact h0
    refine ⟨x / b, Finset.mem_range.2 ?_, ?_⟩
    · rw [Nat.div_lt_iff_lt_mul hbpos]; omega
    · rw [coveredBy_iff S a P (x / b) x ha, ← hb]
      constructor
      · exact Nat.div_mul_le_self x b
      · have hmod := Nat.div_add_mod x b
        have hlt : x % b < b := Nat.mod_lt x hbpos
        have hcomm : x / b * b = b * (x / b) := Nat.mul_comm _ _
        omega

theorem uncovered_card (S : List Nat) (a P : Nat) (ha : a < S.length) :
    (Finset.filter (fun x => ¬ covered S a P x) (Finset.range (S.getD a 0))).card
      = S.getD a 0 % P := by
  set n := S.getD a 0 with hn
  set b := n / P with hb
  have hfe : Finset.filter (fun x => ¬ covered S a P x) (Finset.range n)
      = Finset.Ico (P * b) n := by
    ext x
    simp only [Finset.mem_filter, Finset.mem_range, Finset.mem_Ico,
      covered_iff S a P x ha, ← hn, ← hb]
    omega
  rw [hfe, Nat.card_Ico]
  have hdm := Nat.div_add_mod n P
  have : P * (n / P) = P * b := by rw [hb]
  omega

/-! ### Claim C1: matched begin/end pairs in the analyzeVariable step loop -/

/-- Claim C1, counterexample: with one step remaining in the uncompressed reader and
none in the compressed reader, the compressed reader reports EndOfStream in an
iteration in which the uncompressed reader was already successfully begun, the loop
exits, and the trace at Close time holds one beginU with no matching endU.  This
refutes the claim that every stream begun in such an iteration still receives a
matching endStep before the run closes the streams. -/
theorem C1_counterexample :
    loopTrace 1 0 = [Ev.beginU] ∧
      (loopTrace 1 0).count Ev.beginU = 1 ∧ (loopTrace 1 0).count Ev.endU = 0 := by
  decide

/-- Claim C1 (amended): the loop gives matched begin/end pairs to both readers for
the min u c common steps; whenever the compressed reader has fewer steps than the
uncompressed reader, the uncompressed reader is additionally begun one extra time
and that last BeginStep gets no matching EndStep before both readers are closed.
The compressed reader is always matched. -/
theorem C1_unmatched_begin (u c : Nat) :
    (loopTrace u c).count Ev.beginC = min u c ∧
      (loopTrace u c).count Ev.endC = min u c ∧
      (loopTrace u c).count Ev.endU = min u c ∧
      (loopTrace u c).count Ev.beginU = min u c + (if c < u then 1 else 0) := by
  induction u generalizing c with
  | zero => simp [loopTrace]
  | succ v ih =>
    cases c with
    | zero => simp [loopTrace]
    | succ d =>
      have hd := ih d
      simp only [loopTrace, List.count_cons] at hd ⊢
      rcases hd with ⟨h1, h2, h3, h4⟩
      refine ⟨?_, ?_, ?_, ?_⟩ <;> simp [h1, h2, h3, h4] <;> omega

/-! ### Claim C2: the truncating decomposition -/

/-- Claim C2: under the truncating decomposition used by both tools, worker i gets
offset i * (S[a] / P) and extent S[a] / P along the decomposition axis (integer
division) and offset 0 with full extent on every other axis; exactly S[a] % P
elements along the axis are covered by no worker, and the intervals of distinct
workers never overlap. -/
theorem C2_truncating_decomposition (S : List Nat) (a P i : Nat)
    (ha : a < S.length) (_hP : 1 ≤ P) (_hi : i < P) :
    ((decompCount S a P).getD a 0 = S.getD a 0 / P ∧
      (decompStart S a P i).getD a 0 = i * (S.getD a 0 / P)) ∧
    (∀ j, j < S.length → j ≠ a →
      (decompStart S a P i).getD j 0 = 0 ∧ (decompCount S a P).getD j 0 = S.getD j 0) ∧
    ((Finset.filter (fun x => ¬ covered S a P x) (Finset.range (S.getD a 0))).card
      = S.getD a 0 % P) ∧
    (∀ i2 j2 x, i2 < P → j2 < P → i2 ≠ j2 →
      ¬ (coveredBy S a P i2 x ∧ coveredBy S a P j2 x)) := by
  have hrep : a < (List.replicate S.length (0 : Nat)).length := by simpa using ha
  refine ⟨⟨?_, ?_⟩, ?_, ?_, ?_⟩
  · exact getD_set_self S a _ ha
  · exact getD_set_self _ a _ hrep
  · intro j hj hja
    constructor
    · unfold decompStart
      rw [getD_set_ne _ a j _ (fun h => hja h.symm), getD_replicate]
    · unfold decompCount
      rw [getD_set_ne _ a j _ (fun h => hja h.symm)]
  · exact uncovered_card S a P ha
  · intro i2 j2 x h2 hj2 hne hand
    rcases hand with ⟨hc1, hc2⟩
    rw [coveredBy_iff S a P i2 x ha] at hc1
    rw [coveredBy_iff S a P j2 x ha] at hc2
    set b := S.getD a 0 / P with hb
    rcases Nat.lt_or_ge i2 j2 with hlt | hge
    · have hmul : (i2 + 1) * b ≤ j2 * b := Nat.mul_le_mul_right b (by omega)
      rw [Nat.succ_mul] at hmul
      omega
    · have hlt2 : j2 < i2 := by omega
      have hmul : (j2 + 1) * b ≤ i2 * b := Nat.mul_le_mul_right b (by omega)
      rw [Nat.succ_mul] at hmul
      omega

/-- Claim C2, witness: shape [10, 4], axis 0, 4 workers, worker 1: extent 10 / 4 = 2
at offset 2, and exactly 10 % 4 = 2 axis elements are covered by no worker. -/
theorem C2_truncating_decomposition_witness :
    ((decompCount [10, 4] 0 4).getD 0 0 = 10 / 4 ∧
      (decompStart [10, 4] 0 4 1).getD 0 0 = 1 * (10 / 4)) ∧
    ((Finset.filter (fun x => ¬ covered [10, 4] 0 4 x) (Finset.range ([10, 4].getD 0 0))).card
      = [10, 4].getD 0 0 % 4) :=
  ⟨(C2_truncating_decomposition [10, 4] 0 4 1 (by decide) (by decide) (by decide)).1,
   (C2_truncating_decomposition [10, 4] 0 4 1 (by decide) (by decide) (by decide)).2.2.1⟩

/-! ### Claim C3: remainder-to-last decomposition policy

The source contains only the truncating formula (count[decompDim] /= size), used
identically at both call sites; no remainder-to-last variant and no policy selector
appears anywhere in src/.  The remainder-to-last policy is therefore modelled from
the spec and compared with the source's decomposition. -/

/-- Modelled from the spec: extent of worker i under the remainder-to-last policy of
section 4.1, which is absent from the source.  Workers 0 .. P-2 get baseExtent =
S[a] / P; the last worker gets S[a] - baseExtent * (P - 1). -/
def rtlCount (S : List Nat) (a P i : Nat) : Nat :=
  if i = P - 1 then S.getD a 0 - S.getD a 0 / P * (P - 1) else S.getD a 0 / P

/-- Modelled from the spec: offset of worker i under the remainder-to-last policy,
workerIndex * baseExtent. -/
def rtlStart (S : List Nat) (a P i : Nat) : Nat :=
  i * (S.getD a 0 / P)

/-- Claim C3, counterexample: for global shape [10, 4], axis 0 and 4 workers, the
source's (only) decomposition gives worker 3 the box offset 6, extent 2 — not
extent 4 as the claimed remainder-to-last policy would — and axis element 8 is
covered by no worker, so the per-worker boxes do not partition [0, 10). -/
theorem C3_counterexample :
    (decompCount [10, 4] 0 4).getD 0 0 = 2 ∧
      (decompStart [10, 4] 0 4 3).getD 0 0 = 6 ∧
      ¬ covered [10, 4] 0 4 8 := by
  decide

/-- Claim C3 (amended): the source's decomposition always truncates, giving worker 3
of shape [10, 4] with axis 0 and 4 workers offset 6 and extent 2; a remainder-to-last
policy as the spec words it (modelled here from the spec, since no such policy is
selectable in the source) gives workers 0-2 extent 2 at offsets 0, 2, 4 and worker 3
offset 6 extent 4, and its per-worker boxes partition [0, S[a]) exactly: every axis
element is covered by exactly one worker. -/
theorem C3_remainder_to_last (S : List Nat) (a P : Nat)
    (_ha : a < S.length) (hP : 1 ≤ P) :
    (∀ x, x < S.getD a 0 →
      ∃! i, i < P ∧ rtlStart S a P i ≤ x ∧ x < rtlStart S a P i + rtlCount S a P i) ∧
    (rtlCount [10, 4] 0 4 3 = 4 ∧ rtlStart [10, 4] 0 4 3 = 6 ∧
      rtlCount [10, 4] 0 4 0 = 2 ∧ (decompCount [10, 4] 0 4).getD 0 0 = 2) := by
  constructor
  · intro x hx
    set n := S.getD a 0 with hn
    set b := n / P with hb
    have hPble : P * b ≤ n := by
      rw [hb, Nat.mul_comm]
      exact Nat.div_mul_le_self n P
    by_cases hcase : x < (P - 1) * b
    · -- x lies in the interval of an interior worker
      have hbpos : 0 < b := by
        rcases Nat.eq_zero_or_pos b with h0 | h0
        · rw [h0, Nat.mul_zero] at hcase; omega
        · exact h0
      have hidx : x / b < P - 1 := (Nat.div_lt_iff_lt_mul hbpos).2 hcase
      have hne : x / b ≠ P - 1 := by omega
      have hcover : x / b < P ∧ rtlStart S a P (x / b) ≤ x ∧
          x < rtlStart S a P (x / b) + rtlCount S a P (x / b) := by
        refine ⟨by omega, ?_, ?_⟩
        · unfold rtlStart
          rw [← hn, ← hb]
          exact Nat.div_mul_le_self x b
        · unfold rtlStart rtlCount
          rw [if_neg hne, ← hn, ← hb]
          have hmod := Nat.div_add_mod x b
          have hlt : x % b < b := Nat.mod_lt x hbpos
          have hcomm : x / b * b = b * (x / b) := Nat.mul_comm _ _
          omega
      refine ⟨x / b, hcover, ?_⟩
      rintro j ⟨hjP, hj1, hj2⟩
      by_cases hj : j = P - 1
      · subst hj
        unfold rtlStart at hj1
        rw [← hn, ← hb] at hj1
        omega
      · unfold rtlStart at hj1
        unfold rtlStart rtlCount at hj2
        rw [← hn, ← hb] at hj1
        rw [if_neg hj, ← hn, ← hb] at hj2
        have : x / b = j := by
          have hj2b : x < (j + 1) * b := by rw [Nat.succ_mul]; omega
          have hj1b : j * b ≤ x := hj1
          exact Nat.div_eq_of_lt_le hj1b hj2b
        omega
    · -- x lies in the last worker's interval
      have hge : (P - 1) * b ≤ x := by omega
      have hle : (P - 1) * b ≤ n := by
        have : (P - 1) * b ≤ P * b := Nat.mul_le_mul_right b (by omega)
        omega
      have hcover : P - 1 < P ∧ rtlStart S a P (P - 1) ≤ x ∧
          x < rtlStart S a P (P - 1) + rtlCount S a P (P - 1) := by
        refine ⟨by omega, ?_, ?_⟩
        · unfold rtlStart
          rw [← hn, ← hb]
          exact hge
        · unfold rtlStart rtlCount
          rw [if_pos rfl, ← hn, ← hb]
          have hcomm : b * (P - 1) = (P - 1) * b := Nat.mul_comm _ _
          omega
      refine ⟨P - 1, hcover, ?_⟩
      rintro j ⟨hjP, hj1, hj2⟩
      by_cases hj : j = P - 1
      · exact hj
      · exfalso
        unfold rtlStart at hj1
        unfold rtlStart rtlCount at hj2
        rw [← hn, ← hb] at hj1
        rw [if_neg hj, ← hn, ← hb] at hj2
        have hjlt : j < P - 1 := by omega
        have hmul : (j + 1) * b ≤ (P - 1) * b := Nat.mul_le_mul_right b (by omega)
        rw [Nat.succ_mul] at hmul
        omega
  · refine ⟨?_, ?_, ?_, ?_⟩ <;> decide

/-- Claim C3, witness: the amended theorem applied at shape [10, 4], axis 0,
4 workers, projected to its concrete conjunct. -/
theorem C3_remainder_to_last_witness :
    rtlCount [10, 4] 0 4 3 = 4 ∧ rtlStart [10, 4] 0 4 3 = 6 ∧
      rtlCount [10, 4] 0 4 0 = 2 ∧ (decompCount [10, 4] 0 4).getD 0 0 = 2 :=
  (C3_remainder_to_last [10, 4] 0 4 (by decide) (by decide)).2

/-! ### Claim C4: no DegenerateDecomposition error exists -/

/-- Claim C4, counterexample: for shape [2], axis 0 and 4 workers, the source's
decomposition silently yields the zero-extent box start [0], count [0] (with local
element total 0) for worker 1; no error of any kind is raised — the decomposition
in src/compress_mpi.cpp lines 61-67 and src/decompress_mpi.cpp lines 130-137 has no
failure path at all. -/
theorem C4_counterexample :
    decompCount [2] 0 4 = [0] ∧ decompStart [2] 0 4 1 = [0] ∧
      localSizeOf (decompCount [2] 0 4) = 0 := by
  decide

/-- Claim C4 (amended): whenever the worker count exceeds the axis length
(S[a] / P = 0), the code silently produces an empty box for every worker — extent 0
and offset 0 on the decomposition axis, local element total 0 — and proceeds; no
DegenerateDecomposition or other caller-visible error is produced. -/
theorem C4_silent_empty_box (S : List Nat) (a P i : Nat)
    (ha : a < S.length) (hlt : S.getD a 0 < P) :
    (decompCount S a P).getD a 0 = 0 ∧
      (decompStart S a P i).getD a 0 = 0 ∧
      localSizeOf (decompCount S a P) = 0 := by
  have hq : S.getD a 0 / P = 0 := Nat.div_eq_of_lt hlt
  have hrep : a < (List.replicate S.length (0 : Nat)).length := by simpa using ha
  refine ⟨?_, ?_, ?_⟩
  · unfold decompCount
    rw [hq]
    exact getD_set_self S a 0 ha
  · unfold decompStart
    rw [hq, Nat.mul_zero]
    exact getD_set_self _ a 0 hrep
  · unfold localSizeOf decompCount
    rw [hq]
    exact foldl_mul_of_zero_mem _ 1 (mem_set_of_lt S a 0 ha)

/-- Claim C4, witness: the amended theorem applied at shape [2], axis 0, 4 workers,
worker 1. -/
theorem C4_silent_empty_box_witness :
    (decompCount [2] 0 4).getD 0 0 = 0 ∧
      (decompStart [2] 0 4 1).getD 0 0 = 0 ∧
      localSizeOf (decompCount [2] 0 4) = 0 :=
  C4_silent_empty_box [2] 0 4 1 (by decide) (by decide)

/-! ## Metrics (src/decompress_mpi.cpp)

computeMetrics (lines 21-59) runs on each rank's local buffers; analyzeVariable
(lines 150-196) combines the per-rank values with MPI_Allreduce and derives the
reported global metrics.  C++ double arithmetic is modelled as real arithmetic.
The source's MetricsResult field holding the local sum of squared errors is called
nrmse in the source (line 55 stores sumSquaredError in it); the field the source
calls compressionRatio is named compressionFactor here. -/

structure MetricsResult where
  compressionFactor : ℝ
  nrmse : ℝ
  linf : ℝ
  originalBytes : ℕ
  compressedBytes : ℕ
  numElements : ℕ

/-- The accumulation loop of computeMetrics (lines 42-53): running sums of squared
error and squared original value, and the running maximum absolute error, all
starting at 0. -/
noncomputable def metricSums (original compressed : List ℝ) : ℝ × ℝ × ℝ :=
  (original.zip compressed).foldl
    (fun acc q =>
      (acc.1 + |q.1 - q.2| * |q.1 - q.2|, acc.2.1 + q.1 * q.1, max acc.2.2 |q.1 - q.2|))
    (0, 0, 0)

/-- computeMetrics (lines 21-59).  On a length mismatch it returns the sentinel
result (0, -1, -1) — it does not fail.  Otherwise the nrmse field holds the local
sum of squared errors and linf the local maximum absolute error. -/
noncomputable def computeMetrics (original compressed : List ℝ)
    (originalBytes compressedBytes : ℕ) : MetricsResult :=
  if original.length ≠ compressed.length then
    { compressionFactor := 0, nrmse := -1, linf := -1,
      originalBytes := originalBytes, compressedBytes := compressedBytes,
      numElements := original.length }
  else
    { compressionFactor := (originalBytes : ℝ) / (compressedBytes : ℝ),
      nrmse := (metricSums original compressed).1,
      linf := (metricSums original compressed).2.2,
      originalBytes := originalBytes, compressedBytes := compressedBytes,
      numElements := original.length }

/-- Local metrics of one rank in analyzeVariable (lines 152-155): both buffers were
allocated with localSize elements, originalBytes = localSize * sizeof(T) and
compressedBytes = localSize * sizeof(T) / 2.  A rank is modelled as its pair of
local buffers (uncompressed, compressed); es is sizeof(T). -/
noncomputable def localResult (es : ℕ) (w : List ℝ × List ℝ) : MetricsResult :=
  computeMetrics w.1 w.2 (w.1.length * es) (w.1.length * es / 2)

/-- MPI_Allreduce with MPI_SUM of the per-rank nrmse fields (line 162): the global
sum of squared errors. -/
noncomputable def globalSumSquaredError (es : ℕ) (ws : List (List ℝ × List ℝ)) : ℝ :=
  (ws.map fun w => (localResult es w).nrmse).sum

/-- MPI_Allreduce with MPI_SUM of the local element counts (line 164). -/
def globalElements (ws : List (List ℝ × List ℝ)) : ℕ :=
  (ws.map fun w => w.1.length).sum

/-- Per-rank recomputation of the sum of squared original values
(lines 166-170). -/
noncomputable def localSumSquaredOriginal (O : List ℝ) : ℝ :=
  O.foldl (fun acc v => acc + v * v) 0

/-- MPI_Allreduce with MPI_SUM of the per-rank sums of squared original values
(line 171). -/
noncomputable def globalSumSquaredOriginal (ws : List (List ℝ × List ℝ)) : ℝ :=
  (ws.map fun w => localSumSquaredOriginal w.1).sum

/-- MPI_Allreduce with MPI_MAX: the maximum of the per-rank contributions. -/
noncomputable def allreduceMax : List ℝ → ℝ
  | [] => 0
  | x :: xs => xs.foldl max x

/-- MPI_Allreduce with MPI_MAX of the per-rank linf fields (line 163). -/
noncomputable def globalMaxError (es : ℕ) (ws : List (List ℝ × List ℝ)) : ℝ :=
  allreduceMax (ws.map fun w => (localResult es w).linf)

/-- Globally reported NRMSE (lines 173-175):
rmse = sqrt(globalSumSquaredError / globalElements),
norm = sqrt(globalSumSquaredOriginal / globalElements),
NRMSE = norm > 0 ? rmse / norm : 0. -/
noncomputable def globalNRMSE (es : ℕ) (ws : List (List ℝ × List ℝ)) : ℝ :=
  if Real.sqrt (globalSumSquaredOriginal ws / (globalElements ws : ℝ)) > 0 then
    Real.sqrt (globalSumSquaredError es ws / (globalElements ws : ℝ)) /
      Real.sqrt (globalSumSquaredOriginal ws / (globalElements ws : ℝ))
  else 0

/-- Global byte total of the original data (line 177):
totalOrigBytes = globalElements * sizeof(T). -/
def totalOrigBytes (es : ℕ) (ws : List (List ℝ × List ℝ)) : ℕ :=
  globalElements ws * es

/-- Global compressed byte total (line 178): always the fallback
totalOrigBytes / 2; no actual encoded size is ever obtained anywhere in the
source. -/
def totalCompBytes (es : ℕ) (ws : List (List ℝ × List ℝ)) : ℕ :=
  totalOrigBytes es ws / 2

/-- Globally reported compression factor (line 179), called
globalCompressionRatio in the source:
totalOrigBytes / totalCompBytes in double arithmetic. -/
noncomputable def globalCompressionFactor (es : ℕ) (ws : List (List ℝ × List ℝ)) : ℝ :=
  (totalOrigBytes es ws : ℝ) / (totalCompBytes es ws : ℝ)

/-- Labels of the per-step metric lines printed by analyzeVariable
(lines 182-189); these are the only per-step metrics the program reports. -/
def reportedMetricLabels : List String :=
  ["Total Elements", "Compression Ratio", "NRMSE", "L∞ Error"]

/-- The reduction operations issued per (variable, step) by analyzeVariable
(lines 162-171), as (MPI operation, operand) pairs, in program order; these are
the only collective reductions in the source. -/
def collectiveReduceOps : List (String × String) :=
  [("MPI_SUM", "sumSquaredError"), ("MPI_MAX", "maxAbsError"),
   ("MPI_SUM", "elementCount"), ("MPI_SUM", "sumSquaredOriginal")]

/-- The four global quantities analyzeVariable derives and reports per
(variable, step). -/
structure StepReport where
  totalElements : ℕ
  compressionFactor : ℝ
  nrmse : ℝ
  linfError : ℝ

/-- The per-step report assembled by analyzeVariable (lines 173-189). -/
noncomputable def stepReport (es : ℕ) (ws : List (List ℝ × List ℝ)) : StepReport :=
  { totalElements := globalElements ws
    compressionFactor := globalCompressionFactor es ws
    nrmse := globalNRMSE es ws
    linfError := globalMaxError es ws }

/-- A one-rank run whose original and compressed buffers are identical. -/
noncomputable def wsId : List (List ℝ × List ℝ) :=
  [([1, 2, 3, 4], [1, 2, 3, 4])]

/-! ### Lemmas about the metric sums -/

theorem metricSums_zip_self_fst (O : List ℝ) (p : ℝ × ℝ × ℝ) :
    ((O.zip O).foldl
      (fun acc q =>
        (acc.1 + |q.1 - q.2| * |q.1 - q.2|, acc.2.1 + q.1 * q.1, max acc.2.2 |q.1 - q.2|))
      p).1 = p.1 := by
  induction O generalizing p with
  | nil => rfl
  | cons x xs ih =>
    rw [List.zip_cons_cons, List.foldl_cons, ih]
    simp

theorem metricSums_self_fst (O : List ℝ) : (metricSums O O).1 = 0 := by
  unfold metricSums
  rw [metricSums_zip_self_fst]

theorem globalSumSquaredError_self (es : ℕ) (ws : List (List ℝ × List ℝ))
    (hid : ∀ w ∈ ws, w.1 = w.2) : globalSumSquaredError es ws = 0 := by
  unfold globalSumSquaredError
  apply List.sum_eq_zero
  intro x hx
  rcases List.mem_map.1 hx with ⟨w, hw, rfl⟩
  have hww : w.1 = w.2 := hid w hw
  have hlen : ¬ (w.1.length ≠ w.2.length) := by rw [hww]; simp
  show (computeMetrics w.1 w.2 (w.1.length * es) (w.1.length * es / 2)).nrmse = 0
  unfold computeMetrics
  rw [if_neg hlen]
  show (metricSums w.1 w.2).1 = 0
  rw [hww]
  exact metricSums_self_fst w.2

/-! ### Claim C5: the reported global NRMSE -/

/-- Claim C5: the reported global NRMSE equals
sqrt(globalSumSquaredError / globalElements) / sqrt(globalSumSquaredOriginal / globalElements)
whenever the latter root-mean-square magnitude is strictly positive and 0 otherwise,
and for identical original and compressed buffers on every rank it is exactly 0. -/
theorem C5_global_nrmse (es : ℕ) (ws : List (List ℝ × List ℝ)) :
    (0 < Real.sqrt (globalSumSquaredOriginal ws / (globalElements ws : ℝ)) →
      globalNRMSE es ws =
        Real.sqrt (globalSumSquaredError es ws / (globalElements ws : ℝ)) /
          Real.sqrt (globalSumSquaredOriginal ws / (globalElements ws : ℝ))) ∧
    (¬ 0 < Real.sqrt (globalSumSquaredOriginal ws / (globalElements ws : ℝ)) →
      globalNRMSE es ws = 0) ∧
    ((∀ w ∈ ws, w.1 = w.2) → globalNRMSE es ws = 0) := by
  refine ⟨?_, ?_, ?_⟩
  · intro h
    unfold globalNRMSE
    rw [if_pos h]
  · intro h
    unfold globalNRMSE
    rw [if_neg h]
  · intro hid
    have h0 : globalSumSquaredError es ws = 0 := globalSumSquaredError_self es ws hid
    unfold globalNRMSE
    rw [h0, zero_div, Real.sqrt_zero]
    by_cases hn :
        0 < Real.sqrt (globalSumSquaredOriginal ws / (globalElements ws : ℝ))
    · rw [if_pos hn]
      exact zero_div _
    · rw [if_neg hn]

/-- Claim C5, witness: a single rank holding identical non-empty buffers
[1, 2, 3, 4] gets a reported NRMSE of exactly 0. -/
theorem C5_global_nrmse_witness : globalNRMSE 8 wsId = 0 :=
  (C5_global_nrmse 8 wsId).2.2 (by
    intro w hw
    unfold wsId at hw
    rw [List.mem_singleton] at hw
    rw [hw])

/-! ### Claim C6: no PSNR metric exists -/

/-- Claim C6, counterexample: the per-step report of analyzeVariable has no PSNR
entry, and no MPI_MIN reduction (needed for the data range of the claimed formula)
is performed; the claim that a PSNR equal to 20*log10(range) - 10*log10(rmse)
(with a 999.0 sentinel) is computed and reported is false — no PSNR is computed
anywhere in the source. -/
theorem C6_counterexample :
    "PSNR" ∉ reportedMetricLabels ∧
      "MPI_MIN" ∉ collectiveReduceOps.map Prod.fst := by
  decide

/-- Claim C6 (amended): per (variable, step) the program derives and reports
exactly four quantities — total element count, compression factor, NRMSE and
L∞ error; its collective reductions are three sums and one max (no min reduction
of the original data), and no PSNR metric is computed or reported. -/
theorem C6_step_report (es : ℕ) (ws : List (List ℝ × List ℝ)) :
    stepReport es ws =
      { totalElements := globalElements ws
        compressionFactor := globalCompressionFactor es ws
        nrmse := globalNRMSE es ws
        linfError := globalMaxError es ws } ∧
    reportedMetricLabels.length = 4 ∧
    collectiveReduceOps.map Prod.fst = ["MPI_SUM", "MPI_MAX", "MPI_SUM", "MPI_SUM"] :=
  ⟨rfl, rfl, rfl⟩

/-! ### Claim C7: the estimated compressed size is not flagged -/

/-- Claim C7, counterexample: the compressed byte size is the fallback
originalBytes / 2 (the source never obtains an actual encoded size), the resulting
factor 32 / 16 = 2 is reported under the plain Compression Ratio label, and no
label of the per-step report marks the value as an estimate — refuting the claim
that the fallback-derived value is exposed with a distinct estimated flag. -/
theorem C7_counterexample :
    totalOrigBytes 8 wsId = 32 ∧ totalCompBytes 8 wsId = 16 ∧
      globalCompressionFactor 8 wsId = 2 ∧
      "Compression Ratio" ∈ reportedMetricLabels ∧
      "Compression Ratio (estimated)" ∉ reportedMetricLabels ∧
      "Estimated" ∉ reportedMetricLabels := by
  refine ⟨?_, ?_, ?_, ?_, ?_, ?_⟩
  · unfold totalOrigBytes globalElements wsId
    simp
  · unfold totalCompBytes totalOrigBytes globalElements wsId
    simp
  · unfold globalCompressionFactor totalCompBytes totalOrigBytes globalElements wsId
    norm_num
  · decide
  · decide
  · decide

/-- Claim C7 (amended): the compressed byte size is always the documented fallback
originalBytes / 2; consequently, whenever at least one element is present and the
element size is even, the reported compression factor is identically 2, and it is
reported under the plain Compression Ratio label — the report carries no estimated
flag of any kind. -/
theorem C7_fallback_unflagged (es : ℕ) (ws : List (List ℝ × List ℝ))
    (hdvd : 2 ∣ es) (hn : 0 < globalElements ws) (hes : 0 < es) :
    totalCompBytes es ws = totalOrigBytes es ws / 2 ∧
      globalCompressionFactor es ws = 2 ∧
      reportedMetricLabels = ["Total Elements", "Compression Ratio", "NRMSE", "L∞ Error"] := by
  refine ⟨rfl, ?_, rfl⟩
  rcases hdvd with ⟨k, rfl⟩
  have hk : 0 < k := by omega
  have horig : totalOrigBytes (2 * k) ws = 2 * (globalElements ws * k) := by
    unfold totalOrigBytes
    ring
  have hcomp : totalCompBytes (2 * k) ws = globalElements ws * k := by
    unfold totalCompBytes
    rw [horig]
    exact Nat.mul_div_cancel_left _ (by norm_num)
  have hnz : (globalElements ws * k : ℝ) ≠ 0 := by
    have : 0 < globalElements ws * k := Nat.mul_pos hn hk
    exact_mod_cast Nat.pos_iff_ne_zero.1 this
  unfold globalCompressionFactor
  rw [horig, hcomp]
  push_cast
  field_simp

/-- Claim C7, witness: the amended theorem applied to a one-rank run with four
8-byte elements. -/
theorem C7_fallback_unflagged_witness :
    totalCompBytes 8 wsId = totalOrigBytes 8 wsId / 2 ∧
      globalCompressionFactor 8 wsId = 2 ∧
      reportedMetricLabels = ["Total Elements", "Compression Ratio", "NRMSE", "L∞ Error"] :=
  C7_fallback_unflagged 8 wsId (by norm_num)
    (by unfold globalElements wsId; simp) (by norm_num)

/-! ### Claim C8: length mismatch does not fail and still enters the combine -/

/-- Claim C8, counterexample: for local buffers [1] and [2, 3] of different
lengths, computeMetrics does not fail with any error — it returns the sentinel
result (compression factor 0, nrmse -1, linf -1) — and that sentinel is exactly
what the rank contributes to the MPI_SUM combine of squared errors. -/
theorem C8_counterexample :
    (computeMetrics [(1 : ℝ)] [2, 3] 8 4).nrmse = -1 ∧
      (computeMetrics [(1 : ℝ)] [2, 3] 8 4).linf = -1 ∧
      (computeMetrics [(1 : ℝ)] [2, 3] 8 4).compressionFactor = 0 ∧
      globalSumSquaredError 8 [([(1 : ℝ)], [2, 3])] = -1 := by
  have hne : ([(1 : ℝ)].length ≠ ([2, 3] : List ℝ).length) := by simp
  refine ⟨?_, ?_, ?_, ?_⟩
  · unfold computeMetrics
    rw [if_pos hne]
  · unfold computeMetrics
    rw [if_pos hne]
  · unfold computeMetrics
    rw [if_pos hne]
  · unfold globalSumSquaredError
    show [(localResult 8 ([(1 : ℝ)], [2, 3])).nrmse].sum = -1
    unfold localResult
    show [(computeMetrics [(1 : ℝ)] [2, 3] (1 * 8) (1 * 8 / 2)).nrmse].sum = -1
    unfold computeMetrics
    rw [if_pos hne]
    simp

/-- Claim C8 (amended): on a local length mismatch the metrics phase does not fail
with ShapeMismatch — computeMetrics returns the sentinel MetricsResult
(compression factor 0, nrmse -1, linf -1) — and the sentinel is fed into the
collective combine unchanged: a run whose single rank holds mismatched buffers
combines a global squared-error sum of -1. -/
theorem C8_sentinel_enters_combine (O C : List ℝ) (ob cb : ℕ)
    (h : O.length ≠ C.length) :
    computeMetrics O C ob cb =
      { compressionFactor := 0, nrmse := -1, linf := -1,
        originalBytes := ob, compressedBytes := cb, numElements := O.length } ∧
    ∀ es, globalSumSquaredError es [(O, C)] = -1 := by
  constructor
  · unfold computeMetrics
    rw [if_pos h]
  · intro es
    unfold globalSumSquaredError
    show [(localResult es (O, C)).nrmse].sum = -1
    unfold localResult
    show [(computeMetrics O C (O.length * es) (O.length * es / 2)).nrmse].sum = -1
    unfold computeMetrics
    rw [if_pos h]
    simp

/-- Claim C8, witness: the amended theorem applied to buffers [1] and [2, 3] with
byte sizes 8 and 4, and to its combine at element size 5. -/
theorem C8_sentinel_enters_combine_witness :
    computeMetrics [(1 : ℝ)] [2, 3] 8 4 =
      { compressionFactor := 0, nrmse := -1, linf := -1,
        originalBytes := 8, compressedBytes := 4, numElements := 1 } ∧
      globalSumSquaredError 5 [([(1 : ℝ)], [2, 3])] = -1 :=
  ⟨(C8_sentinel_enters_combine [(1 : ℝ)] [2, 3] 8 4 (by simp)).1,
   (C8_sentinel_enters_combine [(1 : ℝ)] [2, 3] 8 4 (by simp)).2 5⟩

/-! ## Declaration gating in processVariable (src/compress_mpi.cpp lines 28-121)

processVariable handles a single variable with its own writer; per input step the
variable is either absent (InquireVariable fails: EndStep and continue WITHOUT
incrementing step, lines 33-38) or present with some number of dimensions.  If
decompDim >= ndims the step is skipped with step++ (lines 52-59).  Otherwise the
output variable is declared (DefineVariable + AddOperation) exactly when the
counter step is still 0 (lines 81-111), the data is written, and step++.
Hence the counter counts processed and dimension-error steps, not absent ones. -/

inductive StepInput where
  | absent : StepInput
  | present : Nat → StepInput
deriving DecidableEq

/-- Per-step outcomes of processVariable for one variable. -/
inductive PEvent where
  | declareAndWrite
  | writeOnly
  | skipMissing
  | skipDim
deriving DecidableEq

/-- Whether the variable is present in a step's input. -/
def isPresent : StepInput → Bool
  | StepInput.absent => false
  | StepInput.present _ => true

/-- The variable on this step has a dimension count that admits the decomposition
axis (absent steps are vacuously fine). -/
def validDims (decompDim : Nat) : StepInput → Bool
  | StepInput.absent => true
  | StepInput.present n => decide (decompDim < n)

/-- The step loop of processVariable: one PEvent per input step, threading the
step counter exactly as the source does. -/
def procLoop (decompDim : Nat) : List StepInput → Nat → List PEvent
  | [], _ => []
  | StepInput.absent :: rest, c => PEvent.skipMissing :: procLoop decompDim rest c
  | StepInput.present n :: rest, c =>
    if n ≤ decompDim then PEvent.skipDim :: procLoop decompDim rest (c + 1)
    else (if c = 0 then PEvent.declareAndWrite else PEvent.writeOnly)
      :: procLoop decompDim rest (c + 1)

/-- processVariable's whole-run trace for one variable, starting with step = 0. -/
def processVariable (decompDim : Nat) (steps : List StepInput) : List PEvent :=
  procLoop decompDim steps 0

/-- Modelled from the spec: VariableSchemaRegistry.shouldDeclare, the idempotent
query-and-mark of section 4.2, which the source realizes only implicitly through
the step counter gate of processVariable; returns (answer, new state). -/
def shouldDeclare (declared : Bool) : Bool × Bool :=
  (!declared, true)

/-- Modelled from the spec: the answers of n successive shouldDeclare calls
starting from the given registry state. -/
def runRegistry : Bool → Nat → List Bool
  | _, 0 => []
  | st, n + 1 => (shouldDeclare st).1 :: runRegistry (shouldDeclare st).2 n

/-! ### Lemmas for the declaration gate -/

theorem procLoop_pos_no_declare (decompDim : Nat) (steps : List StepInput) (c : Nat)
    (hc : c ≠ 0) :
    (procLoop decompDim steps c).count PEvent.declareAndWrite = 0 := by
  induction steps generalizing c with
  | nil => rfl
  | cons s rest ih =>
    cases s with
    | absent =>
      simp only [procLoop, List.count_cons]
      rw [ih c hc]
      simp
    | present n =>
      by_cases hn : n ≤ decompDim
      · simp only [procLoop, if_pos hn, List.count_cons]
        rw [ih (c + 1) (by omega)]
        simp
      · simp only [procLoop, if_neg hn, List.count_cons]
        rw [if_neg hc, ih (c + 1) (by omega)]
        simp

theorem runRegistry_marked (m : Nat) : runRegistry true m = List.replicate m false := by
  induction m with
  | zero => rfl
  | succ k ih => simp [runRegistry, shouldDeclare, ih, List.replicate]

theorem runRegistry_fresh (m : Nat) (hm : 1 ≤ m) :
    (runRegistry false m).count true = 1 ∧
      (runRegistry false m).getD 0 false = true := by
  cases m with
  | zero => omega
  | succ k =>
    have : runRegistry false (k + 1) = true :: List.replicate k false := by
      simp [runRegistry, shouldDeclare, runRegistry_marked k]
    rw [this]
    constructor
    · simp [List.count_cons, List.count_replicate]
    · rfl

theorem processVariable_declare_at_first (decompDim : Nat) (steps : List StepInput)
    (h1 : steps.all (validDims decompDim) = true)
    (h2 : steps.any isPresent = true) :
    (processVariable decompDim steps).count PEvent.declareAndWrite = 1 ∧
      (processVariable decompDim steps).getD (steps.findIdx isPresent) PEvent.skipMissing
        = PEvent.declareAndWrite := by
  induction steps with
  | nil => simp at h2
  | cons s rest ih =>
    cases s with
    | absent =>
      have h1r : rest.all (validDims decompDim) = true := by
        simpa [validDims] using h1
      have h2r : rest.any isPresent = true := by
        simpa [isPresent] using h2
      have hrec := ih h1r h2r
      unfold processVariable at hrec ⊢
      simp only [procLoop, List.count_cons]
      constructor
      · rw [hrec.1]
        simp
      · rw [List.findIdx_cons]
        simp only [isPresent, cond_false]
        exact hrec.2
    | present n =>
      have hv : decompDim < n := by
        have := (List.all_eq_true.1 h1) (StepInput.present n) (List.mem_cons_self _ _)
        simpa [validDims] using this
      have hn : ¬ n ≤ decompDim := by omega
      unfold processVariable
      simp only [procLoop, if_neg hn, if_pos rfl, List.count_cons]
      constructor
      · rw [procLoop_pos_no_declare decompDim rest 1 (by omega)]
        simp
      · rw [List.findIdx_cons]
        simp [isPresent]

/-! ### Claim C9: the output schema is declared exactly once, on first appearance -/

/-- Claim C9, counterexample: a variable present on its first step with 1 dimension
while the decomposition axis is 1 (decompDim >= ndims, compress_mpi.cpp lines
52-59) is skipped with the step counter incremented; on the next step, where the
variable is present with 2 dimensions and the axis is valid, the counter is no
longer 0, so the step==0 declare gate of lines 81-111 stays closed — the variable
appears in the run yet its schema is declared zero times, not exactly once on its
first appearance.  (The unguarded writeOnly step then writes through an output
variable that was never defined.) -/
theorem C9_counterexample :
    [StepInput.present 1, StepInput.present 2].any isPresent = true ∧
      processVariable 1 [StepInput.present 1, StepInput.present 2]
        = [PEvent.skipDim, PEvent.writeOnly] ∧
      (processVariable 1 [StepInput.present 1, StepInput.present 2]).count
        PEvent.declareAndWrite = 0 := by
  decide

/-- Claim C9 (amended): for a variable all of whose occurrences admit the
decomposition axis (decompDim < ndims), processVariable declares the output schema
exactly once over the whole run, namely on the step where the variable first
appears, and never redeclares it on any later step; when an occurrence has
decompDim >= ndims, the skipped step still increments the gate counter and the
schema can end up never declared at all.  The spec's query-and-mark shouldDeclare
(modelled from the spec) answers true exactly once — on its first call — over any
number of calls. -/
theorem C9_declare_once (decompDim : Nat) (steps : List StepInput)
    (h1 : steps.all (validDims decompDim) = true)
    (h2 : steps.any isPresent = true) :
    ((processVariable decompDim steps).count PEvent.declareAndWrite = 1 ∧
      (processVariable decompDim steps).getD (steps.findIdx isPresent) PEvent.skipMissing
        = PEvent.declareAndWrite) ∧
    (∀ m, 1 ≤ m →
      (runRegistry false m).count true = 1 ∧ (runRegistry false m).getD 0 false = true) :=
  ⟨processVariable_declare_at_first decompDim steps h1 h2,
   fun m hm => runRegistry_fresh m hm⟩

/-- Claim C9, witness: a variable absent on step 0 and present (2-dimensional) on
steps 1 and 2, axis 0: declared exactly once, at index 1, its first appearance. -/
theorem C9_declare_once_witness :
    (processVariable 0 [StepInput.absent, StepInput.present 2, StepInput.present 2]).count
        PEvent.declareAndWrite = 1 ∧
      (processVariable 0 [StepInput.absent, StepInput.present 2, StepInput.present 2]).getD
        ([StepInput.absent, StepInput.present 2, StepInput.present 2].findIdx isPresent)
        PEvent.skipMissing = PEvent.declareAndWrite :=
  (C9_declare_once 0 [StepInput.absent, StepInput.present 2, StepInput.present 2]
    (by decide) (by decide)).1

/-! ## ADIOS-to-binary converter (src/bin.cpp, convert_variable_to_bin, lines 7-80)

The converter reads totalSize = product of the shape entries elements into a flat
buffer, computes a padded 5D shape (for ranks below 5, by prepending 1s) that it
only prints, and writes exactly totalSize * sizeof(T) bytes of the flat buffer to
the output file.  An element is modelled as its list of bytes; the flat buffer is
a list of elements. -/

/-- Element total of a shape (size_t totalSize = 1; for s : shape totalSize *= s;
lines 30-31). -/
def totalSize (shape : List Nat) : Nat :=
  shape.foldl (fun acc s => acc * s) 1

/-- The padded 5D shape (lines 36-48): unchanged for rank at least 5, otherwise
5 - ndims leading 1s are prepended. -/
def newShape (shape : List Nat) : List Nat :=
  if 5 ≤ shape.length then shape
  else List.replicate (5 - shape.length) 1 ++ shape

/-- The two outputs of convert_variable_to_bin: the reshaped shape it prints and
the bytes it writes. -/
structure ConvertResult where
  reshaped : List Nat
  fileBytes : List Nat

/-- convert_variable_to_bin: outStream.write(data, totalSize * sizeof(T)) writes
the first totalSize * sizeof(T) bytes of the flat element buffer (line 63); the
reshaped shape is only printed (lines 50-55). -/
def convert_variable_to_bin (shape : List Nat) (es : Nat) (data : List (List Nat)) :
    ConvertResult :=
  { reshaped := newShape shape
    fileBytes := data.flatten.take (totalSize shape * es) }

/-! ### Lemmas for the converter -/

theorem join_length_const (data : List (List Nat)) (es : Nat)
    (h : ∀ b ∈ data, b.length = es) :
    data.flatten.length = data.length * es := by
  induction data with
  | nil => simp
  | cons x xs ih =>
    have hx : x.length = es := h x (List.mem_cons_self _ _)
    have hxs : ∀ b ∈ xs, b.length = es := fun b hb => h b (List.mem_cons_of_mem x hb)
    simp [List.flatten, hx, ih hxs]
    ring

/-! ### Claim C10: the written bytes are the flat buffer, independent of the 5D shape -/

/-- Claim C10: for a variable of rank at most 5 whose flat buffer has totalSize
elements of es bytes each, the converter writes exactly totalSize * es bytes, and
they are byte-identical to the flat element buffer; the padded 5D shape appears
only in the printed output — any shape with the same element total yields the
identical written bytes. -/
theorem C10_flat_bytes (shape : List Nat) (es : Nat) (data : List (List Nat))
    (_hrank : shape.length ≤ 5)
    (hlen : data.length = totalSize shape)
    (hes : ∀ b ∈ data, b.length = es) :
    (convert_variable_to_bin shape es data).fileBytes = data.flatten ∧
      (convert_variable_to_bin shape es data).fileBytes.length = totalSize shape * es ∧
      (∀ shape2, data.length = totalSize shape2 →
        (convert_variable_to_bin shape2 es data).fileBytes
          = (convert_variable_to_bin shape es data).fileBytes) ∧
      (convert_variable_to_bin shape es data).reshaped = newShape shape := by
  have hjl : data.flatten.length = totalSize shape * es := by
    rw [join_length_const data es hes, hlen]
  have htake : ∀ m, data.flatten.length ≤ m → data.flatten.take m = data.flatten := by
    intro m hm
    exact List.take_of_length_le hm
  have hfb : (convert_variable_to_bin shape es data).fileBytes = data.flatten := by
    show data.flatten.take (totalSize shape * es) = data.flatten
    exact htake _ (le_of_eq hjl)
  refine ⟨hfb, ?_, ?_, rfl⟩
  · rw [hfb, hjl]
  · intro shape2 hlen2
    have hjl2 : data.flatten.length = totalSize shape2 * es := by
      rw [join_length_const data es hes, hlen2]
    show data.flatten.take (totalSize shape2 * es) = _
    rw [htake _ (le_of_eq hjl2), hfb]

/-- Claim C10, witness: shape [2, 3] (rank 2), six 2-byte elements — 12 bytes are
written and they are the flat buffer itself. -/
theorem C10_flat_bytes_witness :
    (convert_variable_to_bin [2, 3] 2 (List.replicate 6 [7, 7])).fileBytes
        = (List.replicate 6 [7, 7]).flatten ∧
      (convert_variable_to_bin [2, 3] 2 (List.replicate 6 [7, 7])).fileBytes.length
        = totalSize [2, 3] * 2 :=
  ⟨(C10_flat_bytes [2, 3] 2 (List.replicate 6 [7, 7]) (by decide) (by decide)
      (by decide)).1,
   (C10_flat_bytes [2, 3] 2 (List.replicate 6 [7, 7]) (by decide) (by decide)
      (by decide)).2.1⟩

end CompressTools
